import Mathlib

/-!
Verification of the CiteRAG pipeline (chunker, reranker, answer synthesizer,
embedding batching) against its natural-language specification.

The Python services are embedded shallowly:
* the tiktoken tokenizer is an abstract parameter `count : String → Nat`
  (spec §6: `count(text) → integer ≥ 0`, deterministic);
* external network calls (Jina reranker, Groq LLM, Jina embeddings) are
  modelled by explicit per-attempt outcome lists:  `none` = the attempt
  raised, `some v` = the attempt returned payload `v`;
* Python `ValueError` raises become `Except.error`, and a `for` loop over
  `range(max_retries)` that falls off the end (returning `None`) becomes
  `Option.none` in the result.
-/

namespace CiteRAG

/-- Python whitespace, as used by `str.strip` and the regex class `\s`
(space, tab, newline, carriage return, vertical tab, form feed). -/
def isPySpace (c : Char) : Bool :=
  c = ' ' || c = '\t' || c = '\n' || c = '\r' || c = Char.ofNat 11 || c = Char.ofNat 12

/-- Python `str.strip()` on a character list. -/
def pyStripList (l : List Char) : List Char :=
  ((l.dropWhile isPySpace).reverse.dropWhile isPySpace).reverse

/-- Python `str.strip()`. -/
def pyStrip (s : String) : String :=
  String.mk (pyStripList s.toList)

/-- Sentence-terminal punctuation of the chunker's regex: `.`, `!`, `?`. -/
def isSentenceEnd (c : Char) : Bool :=
  c = '.' || c = '!' || c = '?'

/-- ASCII uppercase, the regex class `[A-Z]`. -/
def isAsciiUpper (c : Char) : Bool :=
  'A' ≤ c && c ≤ 'Z'

/-- Scanner for `re.split(r'(?<=[.!?])\s+(?=[A-Z])|(?<=[.!?])$', text)` from
`TextChunker.split_into_sentences`.  `prevEnd` records whether the previously
consumed character was sentence-terminal (the lookbehind), `cur` the piece
accumulated so far (reversed).  A separator is a maximal whitespace run
preceded by `.!?` and followed by an ASCII uppercase letter; shortening the
greedy `\s+` run cannot satisfy the `(?=[A-Z])` lookahead (the next character
would be whitespace), so only the maximal run is tried.  The `(?<=[.!?])$`
alternative contributes a trailing empty piece.  `fuel` bounds recursion and
starts at the text length plus one, so it never runs out. -/
def splitSentencesAux (fuel : Nat) (prevEnd : Bool) (cur rest : List Char) :
    List (List Char) :=
  match fuel, rest with
  | 0, rest => [cur.reverse ++ rest]
  | _ + 1, [] => if prevEnd then [cur.reverse, []] else [cur.reverse]
  | fuel + 1, c :: rest' =>
    if prevEnd && isPySpace c then
      match rest'.dropWhile isPySpace with
      | d :: after' =>
        if isAsciiUpper d then
          cur.reverse :: splitSentencesAux fuel false [] (d :: after')
        else
          splitSentencesAux fuel (isSentenceEnd c) (c :: cur) rest'
      | [] => splitSentencesAux fuel (isSentenceEnd c) (c :: cur) rest'
    else
      splitSentencesAux fuel (isSentenceEnd c) (c :: cur) rest'

/-- `TextChunker.split_into_sentences`: regex split, then strip each piece and
drop the empty ones. -/
def split_into_sentences (text : String) : List String :=
  let pieces := splitSentencesAux (text.toList.length + 1) false [] text.toList
  (pieces.map (fun p => String.mk (pyStripList p))).filter (fun s => s != "")

/-- `" ".join(sentences)`. -/
def joinSp : List String → String
  | [] => ""
  | [s] => s
  | s :: rest => s ++ " " ++ joinSp rest

/-- Metadata attached to each produced chunk (`ChunkMetadata` dataclass).
The Python field `section` is a Lean keyword and is named `sectionName`. -/
structure ChunkMetadata where
  source : String
  title : Option String
  sectionName : Option String
  position : Nat
  token_count : Nat
  deriving DecidableEq, Repr

/-- `TextChunk` dataclass. -/
structure TextChunk where
  text : String
  metadata : ChunkMetadata
  deriving DecidableEq, Repr

/-- The chunking loop's mutable locals: emitted `chunks`,
`current_chunk_sentences`, `current_token_count`, `position`. -/
structure ChunkState where
  chunks : List TextChunk
  cur : List String
  curCount : Nat
  pos : Nat
  deriving DecidableEq, Repr

/-- Build one `TextChunk` record. -/
def mkChunk (source : String) (title sectionName : Option String)
    (text : String) (pos tc : Nat) : TextChunk :=
  { text := text,
    metadata := { source := source, title := title, sectionName := sectionName,
                  position := pos, token_count := tc } }

/-- The overlap-seeding loop of `chunk_text`: walk the closed chunk's
sentences from the end (`rest` is the reversed sentence list), accumulating
into `olist`/`otok` while the running total stays within `overlap`, stopping
at the first sentence that would exceed it. -/
def overlapSeedAux (count : String → Nat) (overlap : Nat) :
    List String → List String → Nat → List String × Nat
  | [], olist, otok => (olist, otok)
  | s :: rest, olist, otok =>
    if otok + count s ≤ overlap then
      overlapSeedAux count overlap rest (s :: olist) (otok + count s)
    else
      (olist, otok)

/-- Overlap seed taken from a closed chunk's sentence list. -/
def overlapSeed (count : String → Nat) (overlap : Nat) (sentences : List String) :
    List String × Nat :=
  overlapSeedAux count overlap sentences.reverse [] 0

/-- One iteration of the `for sentence in sentences` loop of
`TextChunker.chunk_text`. -/
def chunkStep (count : String → Nat) (chunk_size chunk_overlap : Nat)
    (source : String) (title sectionName : Option String)
    (st : ChunkState) (sentence : String) : ChunkState :=
  let sentence_tokens := count sentence
  if chunk_size < sentence_tokens then
    -- oversized sentence: flush any pending chunk, then emit it standalone
    let st1 :=
      if st.cur ≠ [] then
        { chunks := st.chunks ++
            [mkChunk source title sectionName (joinSp st.cur) st.pos st.curCount],
          cur := [], curCount := 0, pos := st.pos + 1 }
      else st
    { chunks := st1.chunks ++
        [mkChunk source title sectionName sentence st1.pos sentence_tokens],
      cur := [], curCount := 0, pos := st1.pos + 1 }
  else
    let potential := st.curCount + sentence_tokens
    if chunk_size < potential ∧ st.cur ≠ [] then
      let seed := overlapSeed count chunk_overlap st.cur
      { chunks := st.chunks ++
          [mkChunk source title sectionName (joinSp st.cur) st.pos st.curCount],
        cur := seed.1 ++ [sentence],
        curCount := seed.2 + sentence_tokens,
        pos := st.pos + 1 }
    else
      { chunks := st.chunks, cur := st.cur ++ [sentence],
        curCount := potential, pos := st.pos }

/-- `TextChunker.chunk_text`, with the tokenizer abstracted as `count`. -/
def chunk_text (count : String → Nat) (chunk_size chunk_overlap : Nat)
    (text source : String) (title sectionName : Option String) :
    List TextChunk :=
  if pyStrip text = "" then []
  else
    let sentences0 := split_into_sentences text
    let sentences := if sentences0 = [] then [text] else sentences0
    let st := sentences.foldl
      (chunkStep count chunk_size chunk_overlap source title sectionName)
      { chunks := [], cur := [], curCount := 0, pos := 0 }
    if st.cur ≠ [] then
      st.chunks ++
        [mkChunk source title sectionName (joinSp st.cur) st.pos st.curCount]
    else st.chunks

/-! ### Answer synthesizer (`LLMService`) -/

/-- Numeric value of a digit run, as Python `int(num_str)`. -/
def digitsToNat (ds : List Char) : Nat :=
  ds.foldl (fun acc c => 10 * acc + (c.toNat - '0'.toNat)) 0

/-- `re.findall(r'\[(\d+)\]', answer_text)` followed by `int(...)`: scan left
to right for non-overlapping `[digits]` markers; on a failed match the scan
resumes one character after the opening bracket.  `fuel` starts at the text
length plus one and never runs out (each step consumes at least one
character). -/
def findMarkersAux : Nat → List Char → List Nat
  | 0, _ => []
  | _ + 1, [] => []
  | fuel + 1, c :: rest =>
    if c = '[' then
      match rest.takeWhile Char.isDigit, rest.dropWhile Char.isDigit with
      | [], _ => findMarkersAux fuel rest
      | _ :: _, ']' :: rest' =>
        digitsToNat (rest.takeWhile Char.isDigit) :: findMarkersAux fuel rest'
      | _ :: _, _ => findMarkersAux fuel rest
    else
      findMarkersAux fuel rest

/-- All bracketed-integer markers of the answer text, in scan order. -/
def findMarkers (s : String) : List Nat :=
  findMarkersAux (s.toList.length + 1) s.toList

/-- The `seen`-set loop of `_extract_citations`: keep the first occurrence of
each citation number, in order of appearance. -/
def dedupSeenAux (seen : List Nat) : List Nat → List Nat
  | [] => []
  | n :: rest =>
    if n ∈ seen then dedupSeenAux seen rest
    else n :: dedupSeenAux (n :: seen) rest

/-- The mapping loop of `_extract_citations`: `chunk_idx = citation_num - 1`
(a Python `int`, hence the `Int` arithmetic), kept only when
`0 <= chunk_idx < len(chunks)`; the kept chunk is copied and tagged with
`citation_number = citation_num`. -/
def mapCitationsCode {α : Type} (chunks : List α) : List Nat → List (α × Nat)
  | [] => []
  | n :: rest =>
    if h : 0 ≤ (n : Int) - 1 ∧ (n : Int) - 1 < (chunks.length : Int) then
      (chunks.get ⟨((n : Int) - 1).toNat, by omega⟩, n) :: mapCitationsCode chunks rest
    else
      mapCitationsCode chunks rest

/-- `LLMService._extract_citations`. -/
def extract_citations {α : Type} (answer_text : String) (chunks : List α) :
    List (α × Nat) :=
  mapCitationsCode chunks (dedupSeenAux [] (findMarkers answer_text))

/-- The spec's reading of citation extraction, stated independently of the
source: distinct marker values in order of first appearance (`firstOccurrences`
removes later duplicates by filtering), each in-range value `n` with
`1 ≤ n ≤ length(chunks)` mapped to `chunks[n-1]` tagged `citation_number = n`,
out-of-range values dropped. -/
def firstOccurrences : List Nat → List Nat
  | [] => []
  | n :: rest => n :: firstOccurrences (rest.filter (fun m => m != n))
termination_by l => l.length
decreasing_by
  simp only [List.length_cons]
  exact Nat.lt_succ_of_le (List.length_filter_le _ _)

/-- Citation extraction as the spec words it (the comparison point for the
refinement proof of claim C1). -/
def citationsSpec {α : Type} (answer_text : String) (chunks : List α) :
    List (α × Nat) :=
  (firstOccurrences (findMarkers answer_text)).filterMap (fun n =>
    if h : 1 ≤ n ∧ n ≤ chunks.length then
      some (chunks.get ⟨n - 1, by omega⟩, n)
    else none)

/-- Fixed answer returned by `generate_answer` for an empty chunk list. -/
def noInfoAnswer : String :=
  "No relevant information found in the provided sources."

/-- Fixed answer returned by `generate_answer` when every model call fails. -/
def apologyAnswer : String :=
  "I apologize, but I encountered an error while processing your query. Please try again."

/-- Result dictionary of `generate_answer`.  `fallback` models the presence of
`"fallback": True` in the metadata; `llm_calls` instruments how many external
model calls were issued, so that no-external-call properties are statable. -/
structure AnswerResult (α : Type) where
  answer : String
  citations : List (α × Nat)
  chunk_count : Nat
  fallback : Bool
  llm_calls : Nat
  deriving DecidableEq, Repr

/-- The retry loop of `generate_answer`.  Each list entry is one external
model call: `some content` is a successful completion, `none` a raised
exception.  On the last failed attempt the apology fallback is returned;
an empty attempt list (`max_retries = 0`) falls off the loop and returns
Python `None`. -/
def answerAttemptsLoop {α : Type} (chunks : List α) :
    List (Option String) → Nat → Option (AnswerResult α)
  | [], _ => none
  | o :: rest, callsMade =>
    match o with
    | some content =>
      let answer_text := pyStrip content
      some { answer := answer_text,
             citations := extract_citations answer_text chunks,
             chunk_count := chunks.length,
             fallback := false,
             llm_calls := callsMade + 1 }
    | none =>
      match rest with
      | [] =>
        some { answer := apologyAnswer, citations := [],
               chunk_count := chunks.length, fallback := true,
               llm_calls := callsMade + 1 }
      | _ :: _ => answerAttemptsLoop chunks rest (callsMade + 1)

/-- `LLMService.generate_answer`.  `Except.error` models the `ValueError`
raised on an empty query; `.ok none` models the `None` return of an empty
retry range. -/
def generate_answer {α : Type} (query : String) (chunks : List α)
    (outcomes : List (Option String)) : Except String (Option (AnswerResult α)) :=
  if pyStrip query = "" then .error "Query cannot be empty"
  else if chunks.isEmpty then
    .ok (some { answer := noInfoAnswer, citations := [], chunk_count := 0,
                fallback := false, llm_calls := 0 })
  else .ok (answerAttemptsLoop chunks outcomes 0)

/-! ### Reranker (`RerankerService`) -/

/-- Result dictionary of `rerank`.  Chunk entries carry `Option ℚ` because the
fallback path returns the original chunk dictionaries without a
`reranker_score` key; `fallback` models `"fallback": True` in the metadata. -/
structure RerankResult (α : Type) where
  reranked_chunks : List (α × Option ℚ)
  rerank_scores : List ℚ
  count : Nat
  fallback : Bool
  deriving DecidableEq, Repr

/-- Stable descending insertion: `x` goes in front of the first element whose
key does not exceed `x`'s, so among equal keys the earlier element of the
input stays first. -/
def insertDescBy {β : Type} (key : β → ℚ) (x : β) : List β → List β
  | [] => [x]
  | y :: ys => if key y ≤ key x then x :: y :: ys else y :: insertDescBy key x ys

/-- Stable descending sort, the semantics of Python
`sorted(reranked, key=lambda x: x["reranker_score"], reverse=True)`
(Python's sort is stable, and `reverse=True` preserves the order of equal
keys). -/
def sortDescBy {β : Type} (key : β → ℚ) : List β → List β
  | [] => []
  | x :: xs => insertDescBy key x (sortDescBy key xs)

/-- Success path of `rerank`, given the parsed API response `results` as
`(index, relevance_score)` pairs in response order: rebuild each scored chunk
from `chunks[idx]` (an out-of-range index raises inside the `try`, modelled as
`none`), sort stably by descending score, truncate to `top_k`. -/
def rerankSuccessCore {α : Type} (chunks : List α) (results : List (Nat × ℚ))
    (top_k : Nat) : Option (RerankResult α) :=
  (results.mapM (fun r => (chunks.get? r.1).map (fun c => (c, r.2)))).map
    (fun reranked =>
      let final := (sortDescBy (fun p => p.2) reranked).take top_k
      { reranked_chunks := final.map (fun p => (p.1, some p.2)),
        rerank_scores := results.map (fun r => r.2),
        count := final.length,
        fallback := false })

/-- The retry loop of `rerank`.  Each entry is one external call: `some
results` is a parsed response, `none` a raised exception; a response whose
indices are out of range also raises (inside the same `try`) and counts as a
failed attempt.  The last failed attempt returns the fallback: the first
`top_k` input chunks unchanged, no scores, `"fallback": True`.  An empty
attempt list models `max_retries = 0` (Python returns `None`). -/
def rerankAttemptsLoop {α : Type} (chunks : List α) (top_k : Nat) :
    List (Option (List (Nat × ℚ))) → Option (RerankResult α)
  | [] => none
  | o :: rest =>
    match o.bind (fun results => rerankSuccessCore chunks results top_k) with
    | some r => some r
    | none =>
      match rest with
      | [] =>
        some { reranked_chunks := (chunks.take top_k).map (fun c => (c, none)),
               rerank_scores := [],
               count := min chunks.length top_k,
               fallback := true }
      | _ :: _ => rerankAttemptsLoop chunks top_k rest

/-- `RerankerService.rerank`.  `Except.error` models the `ValueError` raises on
empty query or empty chunk list. -/
def rerank {α : Type} (query : String) (chunks : List α) (top_k : Nat)
    (outcomes : List (Option (List (Nat × ℚ)))) :
    Except String (Option (RerankResult α)) :=
  if pyStrip query = "" then .error "Query cannot be empty"
  else if chunks.isEmpty then .error "No chunks to rerank"
  else .ok (rerankAttemptsLoop chunks top_k outcomes)

/-! ### Embedding service (`EmbeddingService.generate_embeddings_batch`) -/

/-- The retry loop of `generate_embeddings_batch`: `attempts` lists, per
external call, whether the HTTP request succeeded; a successful call returns
`api valid` where `valid` is the submitted text list and `api` abstracts the
Jina endpoint.  The last failed attempt raises; an empty attempt list models
`max_retries = 0` (Python returns `None`). -/
def embedAttemptsLoop {E : Type} (api : List String → List E) :
    List Bool → List String → Except String (Option (List E))
  | [], _ => .ok none
  | ok :: rest, valid =>
    if ok then .ok (some (api valid))
    else
      match rest with
      | [] => .error "Failed to generate batch embeddings"
      | _ :: _ => embedAttemptsLoop api rest valid

/-- `EmbeddingService.generate_embeddings_batch`: empty input short-circuits
to `[]`; texts failing `t and t.strip()` are filtered out; an all-invalid
list raises `ValueError`; otherwise only the filtered `valid_texts` are sent
to the API. -/
def generate_embeddings_batch {E : Type} (api : List String → List E)
    (attempts : List Bool) (texts : List String) :
    Except String (Option (List E)) :=
  if texts = [] then .ok (some [])
  else
    let valid := texts.filter (fun t => pyStrip t != "")
    if valid = [] then .error "No valid texts to embed"
    else embedAttemptsLoop api attempts valid

/-! ### Specification-side predicates and invariants -/

/-- Loop invariant for claim C6: emitted positions so far are `0..len-1` and
the running `position` counter equals the number of emitted chunks. -/
def posOk (st : ChunkState) : Prop :=
  st.chunks.map (fun c => c.metadata.position) = List.range st.chunks.length ∧
  st.pos = st.chunks.length

/-- Per-chunk budget bound actually maintained by the code: either the chunk
respects `chunk_size + chunk_overlap` (an overlap seed of at most
`chunk_overlap` tokens may be pre-charged before a sentence of up to
`chunk_size` tokens is appended unconditionally), or it is an
oversized-sentence chunk whose recorded count is the count of its whole text
and exceeds `chunk_size`. -/
def budgetOk (count : String → Nat) (cs co : Nat) (c : TextChunk) : Prop :=
  c.metadata.token_count ≤ cs + co ∨
  (cs < count c.text ∧ c.metadata.token_count = count c.text)

/-- Loop invariant for claim C4. -/
def budgetInv (count : String → Nat) (cs co : Nat) (st : ChunkState) : Prop :=
  (∀ c ∈ st.chunks, budgetOk count cs co c) ∧ st.curCount ≤ cs + co ∧
  (st.cur = [] → st.curCount = 0)

/-- Loop invariant for claim C2: every emitted `token_count` is the sum of
the per-sentence counts of the chunk's text, and the running counter is the
per-sentence sum of the pending sentences. -/
def sumInv (count : String → Nat) (st : ChunkState) : Prop :=
  (∀ c ∈ st.chunks, c.metadata.token_count = count c.text) ∧
  st.curCount = (st.cur.map count).sum

/-- Character counting ignoring spaces: a concrete tokenizer that is additive
across single-space joins, used to witness the amended claim C2. -/
def nonSpaceCount (s : String) : Nat :=
  (s.data.filter (fun c => c != ' ')).length

/-- The tie-breaking rule asserted by claim C3: entries with equal
`reranker_score` appear in the order of their chunk's position in the
original retrieval list. -/
def tiesFollowRetrievalOrder {α : Type} [BEq α] (chunks : List α)
    (out : List (α × Option ℚ)) : Prop :=
  out.Pairwise (fun p q => p.2 = q.2 → chunks.indexOf p.1 ≤ chunks.indexOf q.1)

end CiteRAG

namespace CiteRAG

example : split_into_sentences "Ab. Cd. Ef. Gh." = ["Ab.", "Cd.", "Ef.", "Gh."] := by decide

example : split_into_sentences "First sentence. Second sentence! Third? Done." =
    ["First sentence.", "Second sentence!", "Third?", "Done."] := by decide

example : split_into_sentences "no capitals here. next stays glued" =
    ["no capitals here. next stays glued"] := by decide

example :
    (chunk_text String.length 4 4 "Ab. Cd. Ef. Gh." "user_input" none none).map
      (fun c => (c.text, c.metadata.token_count, c.metadata.position)) =
    [("Ab.", 3, 0), ("Ab. Cd.", 6, 1), ("Cd. Ef.", 6, 2), ("Ef. Gh.", 6, 3)] := by decide

example : findMarkers "Fact [2]. Also [1], [2] and [5]." = [2, 1, 2, 5] := by decide

example : findMarkers "odd [[3]] [] [12] [1a] tail" = [3, 12] := by decide

example :
    extract_citations "Fact [2]. Also [1], [2] and [5]." ["c1x", "c2x", "c3x", "c4x"] =
    [("c2x", 2), ("c1x", 1)] := by decide

example : extract_citations "see [0] and [1]" ["c1x", "c2x"] = [("c1x", 1)] := by decide

example :
    (rerankSuccessCore ["a", "b", "c"] [(2, 5), (0, 7), (1, 5)] 2).map
      (fun r => r.reranked_chunks) = some [("a", some 7), ("c", some 5)] := by decide

example :
    rerank "q" ["a", "b", "c"] 2 [none, none] =
      .ok (some { reranked_chunks := [("a", none), ("b", none)],
                  rerank_scores := [], count := 2, fallback := true }) := rfl

example :
    generate_answer "q" ([] : List String) [some "hello"] =
      .ok (some { answer := noInfoAnswer, citations := [], chunk_count := 0,
                  fallback := false, llm_calls := 0 }) := rfl

example :
    generate_answer "  " (["c"] : List String) [some "hello"] =
      (.error "Query cannot be empty" : Except String (Option (AnswerResult String))) := rfl

example :
    generate_embeddings_batch (fun l => l.map (fun _ => (0 : Nat))) [true] ["", "hi", " "] =
      .ok (some [0]) := rfl

/-! ### Helper lemmas -/

theorem isEmpty_eq_false_of_ne_nil {α : Type} {l : List α} (h : l ≠ []) :
    l.isEmpty = false := by
  cases l with
  | nil => exact absurd rfl h
  | cons a t => rfl

theorem rerankAttemptsLoop_all_none {α : Type} (chunks : List α) (top_k : Nat) :
    ∀ outcomes : List (Option (List (Nat × ℚ))), outcomes ≠ [] →
      (∀ o ∈ outcomes, o = none) →
      rerankAttemptsLoop chunks top_k outcomes =
        some { reranked_chunks := (chunks.take top_k).map (fun c => (c, none)),
               rerank_scores := [], count := min chunks.length top_k,
               fallback := true }
  | [], h, _ => absurd rfl h
  | o :: rest, _, hall => by
    have ho := hall o (List.mem_cons_self _ _)
    subst ho
    cases rest with
    | nil => rfl
    | cons r rs =>
      exact rerankAttemptsLoop_all_none chunks top_k (r :: rs)
        (List.cons_ne_nil _ _) (fun o ho => hall o (List.mem_cons_of_mem _ ho))

theorem embedAttemptsLoop_ok {E : Type} (api : List String → List E) :
    ∀ (attempts : List Bool) (valid : List String) (r : List E),
      embedAttemptsLoop api attempts valid = .ok (some r) → r = api valid
  | [], _, _, h => by simp [embedAttemptsLoop] at h
  | ok :: rest, valid, r, h => by
    by_cases hok : ok
    · subst hok
      simp only [embedAttemptsLoop, if_pos] at h
      injection h with h1
      injection h1 with h2
      exact h2.symm
    · have hok' : ok = false := Bool.eq_false_iff.mpr hok
      subst hok'
      cases rest with
      | nil => simp [embedAttemptsLoop] at h
      | cons b bs =>
        exact embedAttemptsLoop_ok api (b :: bs) valid r h

theorem length_filter_lt_of_mem_not {α : Type} (p : α → Bool) :
    ∀ (l : List α) (x : α), x ∈ l → p x = false →
      (l.filter p).length < l.length
  | a :: t, x, hx, hpx => by
    rcases List.mem_cons.mp hx with h | h
    · subst h
      simp only [List.filter_cons, hpx, List.length_cons]
      exact Nat.lt_succ_of_le (List.length_filter_le _ _)
    · have ih := length_filter_lt_of_mem_not p t x h hpx
      simp only [List.filter_cons, List.length_cons]
      cases p a <;> simp <;> omega

theorem mapCitationsCode_eq_filterMap {α : Type} (chunks : List α) :
    ∀ l : List Nat,
      mapCitationsCode chunks l =
        l.filterMap (fun n =>
          if h : 1 ≤ n ∧ n ≤ chunks.length then
            some (chunks.get ⟨n - 1, by omega⟩, n)
          else none)
  | [] => rfl
  | n :: rest => by
    have hrest := mapCitationsCode_eq_filterMap chunks rest
    by_cases h : 1 ≤ n ∧ n ≤ chunks.length
    · have h' : 0 ≤ (n : Int) - 1 ∧ (n : Int) - 1 < (chunks.length : Int) := by omega
      simp only [mapCitationsCode, List.filterMap_cons, dif_pos h, dif_pos h', hrest]
      have hfin : (⟨((n : Int) - 1).toNat, by omega⟩ : Fin chunks.length) =
          ⟨n - 1, by omega⟩ := by
        apply Fin.ext
        show ((n : Int) - 1).toNat = n - 1
        omega
      refine congrArg (fun p => p :: _) ?_
      exact congrArg (fun p : Fin chunks.length => (chunks.get p, n)) hfin
    · have h' : ¬ (0 ≤ (n : Int) - 1 ∧ (n : Int) - 1 < (chunks.length : Int)) := by
        omega
      simp only [mapCitationsCode, List.filterMap_cons, dif_neg h, dif_neg h', hrest]

theorem dedupSeenAux_eq_firstOccurrences :
    ∀ (l seen : List Nat),
      dedupSeenAux seen l = firstOccurrences (l.filter (fun m => decide (m ∉ seen)))
  | [], seen => by simp [dedupSeenAux, firstOccurrences]
  | n :: rest, seen => by
    by_cases h : n ∈ seen
    · have hd : (decide (n ∉ seen)) = false := by simp [h]
      simp only [dedupSeenAux, if_pos h, List.filter_cons, hd, Bool.false_eq_true,
        if_false]
      exact dedupSeenAux_eq_firstOccurrences rest seen
    · have hd : (decide (n ∉ seen)) = true := by simp [h]
      simp only [dedupSeenAux, if_neg h, List.filter_cons, hd, if_true]
      rw [dedupSeenAux_eq_firstOccurrences rest (n :: seen)]
      simp only [firstOccurrences]
      congr 1
      rw [List.filter_filter]
      refine congrArg firstOccurrences (List.filter_congr ?_)
      intro m _
      by_cases h1 : m = n <;> by_cases h2 : m ∈ seen <;>
        simp [h1, h2, List.mem_cons, bne]

/-- Oversized sentence with a pending chunk: flush it, then emit the sentence
standalone. -/
theorem chunkStep_oversized_flush (count : String → Nat) (cs co : Nat)
    (src : String) (t sec : Option String) (st : ChunkState) (s : String)
    (h1 : cs < count s) (h2 : st.cur ≠ []) :
    chunkStep count cs co src t sec st s =
      { chunks := (st.chunks ++ [mkChunk src t sec (joinSp st.cur) st.pos st.curCount])
          ++ [mkChunk src t sec s (st.pos + 1) (count s)],
        cur := [], curCount := 0, pos := st.pos + 1 + 1 } := by
  simp only [chunkStep, if_pos h1, if_pos h2]

/-- Oversized sentence with no pending chunk: emit it standalone. -/
theorem chunkStep_oversized_nocur (count : String → Nat) (cs co : Nat)
    (src : String) (t sec : Option String) (st : ChunkState) (s : String)
    (h1 : cs < count s) (h2 : st.cur = []) :
    chunkStep count cs co src t sec st s =
      { chunks := st.chunks ++ [mkChunk src t sec s st.pos (count s)],
        cur := [], curCount := 0, pos := st.pos + 1 } := by
  have h2' : ¬ st.cur ≠ [] := fun hne => hne h2
  simp only [chunkStep, if_pos h1, if_neg h2']

/-- Budget exceeded with a pending chunk: close it and reseed with the
overlap. -/
theorem chunkStep_close (count : String → Nat) (cs co : Nat)
    (src : String) (t sec : Option String) (st : ChunkState) (s : String)
    (h1 : ¬ cs < count s) (h2 : cs < st.curCount + count s) (h3 : st.cur ≠ []) :
    chunkStep count cs co src t sec st s =
      { chunks := st.chunks ++ [mkChunk src t sec (joinSp st.cur) st.pos st.curCount],
        cur := (overlapSeed count co st.cur).1 ++ [s],
        curCount := (overlapSeed count co st.cur).2 + count s,
        pos := st.pos + 1 } := by
  simp only [chunkStep, if_neg h1, if_pos (And.intro h2 h3)]

/-- Within budget (or nothing pending): append the sentence to the current
chunk. -/
theorem chunkStep_append (count : String → Nat) (cs co : Nat)
    (src : String) (t sec : Option String) (st : ChunkState) (s : String)
    (h1 : ¬ cs < count s) (h2 : ¬ (cs < st.curCount + count s ∧ st.cur ≠ [])) :
    chunkStep count cs co src t sec st s =
      { chunks := st.chunks, cur := st.cur ++ [s],
        curCount := st.curCount + count s, pos := st.pos } := by
  simp only [chunkStep, if_neg h1, if_neg h2]

theorem overlapSeedAux_le (count : String → Nat) (overlap : Nat) :
    ∀ (rest olist : List String) (otok : Nat), otok ≤ overlap →
      (overlapSeedAux count overlap rest olist otok).2 ≤ overlap
  | [], _, _, h => h
  | s :: rest, olist, otok, h => by
    by_cases hc : otok + count s ≤ overlap
    · simp only [overlapSeedAux, if_pos hc]
      exact overlapSeedAux_le count overlap rest _ _ hc
    · simp only [overlapSeedAux, if_neg hc]
      exact h

theorem overlapSeedAux_sum (count : String → Nat) (overlap : Nat) :
    ∀ (rest olist : List String) (otok : Nat), otok = (olist.map count).sum →
      (overlapSeedAux count overlap rest olist otok).2 =
        ((overlapSeedAux count overlap rest olist otok).1.map count).sum
  | [], _, _, h => h
  | s :: rest, olist, otok, h => by
    by_cases hc : otok + count s ≤ overlap
    · simp only [overlapSeedAux, if_pos hc]
      exact overlapSeedAux_sum count overlap rest (s :: olist) (otok + count s)
        (by rw [h, List.map_cons, List.sum_cons, Nat.add_comm])
    · simp only [overlapSeedAux, if_neg hc]
      exact h

theorem overlapSeedAux_spec (count : String → Nat) (overlap : Nat) :
    ∀ (rest olist : List String) (otok : Nat),
      (overlapSeedAux count overlap rest olist otok).1 = rest.reverse ++ olist ∨
      ∃ x, (x :: (overlapSeedAux count overlap rest olist otok).1) <:+
          rest.reverse ++ olist ∧
        overlap < (overlapSeedAux count overlap rest olist otok).2 + count x
  | [], olist, otok => Or.inl rfl
  | s :: rest, olist, otok => by
    have harr : (s :: rest).reverse ++ olist = rest.reverse ++ (s :: olist) := by
      simp
    by_cases hc : otok + count s ≤ overlap
    · simp only [overlapSeedAux, if_pos hc]
      rw [harr]
      exact overlapSeedAux_spec count overlap rest (s :: olist) (otok + count s)
    · simp only [overlapSeedAux, if_neg hc]
      rw [harr]
      exact Or.inr ⟨s, ⟨rest.reverse, rfl⟩, by omega⟩

theorem overlapSeed_le (count : String → Nat) (overlap : Nat) (l : List String) :
    (overlapSeed count overlap l).2 ≤ overlap :=
  overlapSeedAux_le count overlap l.reverse [] 0 (Nat.zero_le _)

theorem overlapSeed_sum (count : String → Nat) (overlap : Nat) (l : List String) :
    (overlapSeed count overlap l).2 = ((overlapSeed count overlap l).1.map count).sum :=
  overlapSeedAux_sum count overlap l.reverse [] 0 rfl

theorem overlapSeed_spec (count : String → Nat) (overlap : Nat) (l : List String) :
    (overlapSeed count overlap l).1 = l ∨
    ∃ x, (x :: (overlapSeed count overlap l).1) <:+ l ∧
      overlap < (overlapSeed count overlap l).2 + count x := by
  have h := overlapSeedAux_spec count overlap l.reverse [] 0
  simpa [overlapSeed] using h

theorem overlapSeed_suffix (count : String → Nat) (overlap : Nat) (l : List String) :
    (overlapSeed count overlap l).1 <:+ l := by
  rcases overlapSeed_spec count overlap l with h | ⟨x, hx, -⟩
  · rw [h]
  · exact (List.suffix_cons x _).trans hx

theorem posOk_push {chunks : List TextChunk} {pos : Nat} {c : TextChunk}
    (h1 : chunks.map (fun c => c.metadata.position) = List.range chunks.length)
    (h2 : pos = chunks.length) (hc : c.metadata.position = pos) :
    (chunks ++ [c]).map (fun c => c.metadata.position) =
      List.range (chunks ++ [c]).length ∧ pos + 1 = (chunks ++ [c]).length := by
  constructor
  · rw [List.map_append, h1, List.length_append]
    simp [List.range_succ, hc, h2]
  · simp [h2]

theorem chunkStep_posOk (count : String → Nat) (cs co : Nat)
    (src : String) (t sec : Option String) (st : ChunkState) (s : String)
    (h : posOk st) : posOk (chunkStep count cs co src t sec st s) := by
  by_cases h1 : cs < count s
  · by_cases h2 : st.cur = []
    · rw [chunkStep_oversized_nocur count cs co src t sec st s h1 h2]
      exact posOk_push h.1 h.2 rfl
    · rw [chunkStep_oversized_flush count cs co src t sec st s h1 h2]
      have step1 := posOk_push (c := mkChunk src t sec (joinSp st.cur) st.pos st.curCount)
        h.1 h.2 rfl
      exact posOk_push (c := mkChunk src t sec s (st.pos + 1) (count s))
        step1.1 step1.2 rfl
  · by_cases h2 : cs < st.curCount + count s ∧ st.cur ≠ []
    · rw [chunkStep_close count cs co src t sec st s h1 h2.1 h2.2]
      exact posOk_push h.1 h.2 rfl
    · rw [chunkStep_append count cs co src t sec st s h1 h2]
      exact h

theorem foldl_chunkStep_posOk (count : String → Nat) (cs co : Nat)
    (src : String) (t sec : Option String) :
    ∀ (sentences : List String) (st : ChunkState), posOk st →
      posOk (sentences.foldl (chunkStep count cs co src t sec) st)
  | [], _, h => h
  | s :: rest, st, h =>
    foldl_chunkStep_posOk count cs co src t sec rest _
      (chunkStep_posOk count cs co src t sec st s h)

theorem chunkFinal_posOk (src : String) (t sec : Option String)
    (st : ChunkState) (h : posOk st) :
    (if st.cur ≠ [] then
        st.chunks ++ [mkChunk src t sec (joinSp st.cur) st.pos st.curCount]
      else st.chunks).map (fun c => c.metadata.position) =
      List.range (if st.cur ≠ [] then
        st.chunks ++ [mkChunk src t sec (joinSp st.cur) st.pos st.curCount]
      else st.chunks).length := by
  by_cases hcur : st.cur ≠ []
  · rw [if_pos hcur]
    exact (posOk_push h.1 h.2 rfl).1
  · rw [if_neg hcur]
    exact h.1

theorem chunkStep_budgetInv (count : String → Nat) (cs co : Nat)
    (src : String) (t sec : Option String) (st : ChunkState) (s : String)
    (h : budgetInv count cs co st) :
    budgetInv count cs co (chunkStep count cs co src t sec st s) := by
  obtain ⟨hall, hcnt, hnil⟩ := h
  by_cases h1 : cs < count s
  · by_cases h2 : st.cur = []
    · rw [chunkStep_oversized_nocur count cs co src t sec st s h1 h2]
      refine ⟨?_, Nat.zero_le _, fun _ => rfl⟩
      intro c hc
      rcases List.mem_append.mp hc with hc | hc
      · exact hall c hc
      · rw [List.mem_singleton.mp hc]
        exact Or.inr ⟨h1, rfl⟩
    · rw [chunkStep_oversized_flush count cs co src t sec st s h1 h2]
      refine ⟨?_, Nat.zero_le _, fun _ => rfl⟩
      intro c hc
      rcases List.mem_append.mp hc with hc | hc
      · rcases List.mem_append.mp hc with hc | hc
        · exact hall c hc
        · rw [List.mem_singleton.mp hc]
          exact Or.inl hcnt
      · rw [List.mem_singleton.mp hc]
        exact Or.inr ⟨h1, rfl⟩
  · by_cases h2 : cs < st.curCount + count s ∧ st.cur ≠ []
    · rw [chunkStep_close count cs co src t sec st s h1 h2.1 h2.2]
      refine ⟨?_, ?_, ?_⟩
      · intro c hc
        rcases List.mem_append.mp hc with hc | hc
        · exact hall c hc
        · rw [List.mem_singleton.mp hc]
          exact Or.inl hcnt
      · have hseed := overlapSeed_le count co st.cur
        show (overlapSeed count co st.cur).2 + count s ≤ cs + co
        omega
      · intro hcontra
        exact absurd hcontra (by simp)
    · rw [chunkStep_append count cs co src t sec st s h1 h2]
      refine ⟨hall, ?_, ?_⟩
      · show st.curCount + count s ≤ cs + co
        by_cases h3 : cs < st.curCount + count s
        · have h4 : st.cur = [] := by
            by_contra h5
            exact h2 ⟨h3, h5⟩
          have := hnil h4
          omega
        · omega
      · intro hcontra
        exact absurd hcontra (by simp)

theorem foldl_chunkStep_budgetInv (count : String → Nat) (cs co : Nat)
    (src : String) (t sec : Option String) :
    ∀ (sentences : List String) (st : ChunkState), budgetInv count cs co st →
      budgetInv count cs co (sentences.foldl (chunkStep count cs co src t sec) st)
  | [], _, h => h
  | s :: rest, st, h =>
    foldl_chunkStep_budgetInv count cs co src t sec rest _
      (chunkStep_budgetInv count cs co src t sec st s h)

theorem chunkFinal_budget (count : String → Nat) (cs co : Nat)
    (src : String) (t sec : Option String) (st : ChunkState)
    (h : budgetInv count cs co st) :
    ∀ c ∈ (if st.cur ≠ [] then
        st.chunks ++ [mkChunk src t sec (joinSp st.cur) st.pos st.curCount]
      else st.chunks), budgetOk count cs co c := by
  intro c hc
  by_cases hcur : st.cur ≠ []
  · rw [if_pos hcur] at hc
    rcases List.mem_append.mp hc with hc | hc
    · exact h.1 c hc
    · rw [List.mem_singleton.mp hc]
      exact Or.inl h.2.1
  · rw [if_neg hcur] at hc
    exact h.1 c hc

theorem count_joinSp (count : String → Nat)
    (hadd : ∀ a b : String, count (a ++ " " ++ b) = count a + count b) :
    ∀ (s : String) (rest : List String),
      count (joinSp (s :: rest)) = count s + (rest.map count).sum
  | _, [] => by simp [joinSp]
  | s, y :: t => by
    have ih := count_joinSp count hadd y t
    simp only [joinSp] at ih ⊢
    rw [hadd, ih, List.map_cons, List.sum_cons]

theorem count_joinSp_sum (count : String → Nat)
    (hadd : ∀ a b : String, count (a ++ " " ++ b) = count a + count b)
    (l : List String) (hl : l ≠ []) : count (joinSp l) = (l.map count).sum := by
  cases l with
  | nil => exact absurd rfl hl
  | cons s rest =>
    rw [count_joinSp count hadd s rest, List.map_cons, List.sum_cons]

theorem chunkStep_sumInv (count : String → Nat) (cs co : Nat)
    (src : String) (t sec : Option String) (st : ChunkState) (s : String)
    (hadd : ∀ a b : String, count (a ++ " " ++ b) = count a + count b)
    (h : sumInv count st) :
    sumInv count (chunkStep count cs co src t sec st s) := by
  obtain ⟨hall, hcnt⟩ := h
  by_cases h1 : cs < count s
  · by_cases h2 : st.cur = []
    · rw [chunkStep_oversized_nocur count cs co src t sec st s h1 h2]
      refine ⟨?_, rfl⟩
      intro c hc
      rcases List.mem_append.mp hc with hc | hc
      · exact hall c hc
      · rw [List.mem_singleton.mp hc]
        rfl
    · rw [chunkStep_oversized_flush count cs co src t sec st s h1 h2]
      refine ⟨?_, rfl⟩
      intro c hc
      rcases List.mem_append.mp hc with hc | hc
      · rcases List.mem_append.mp hc with hc | hc
        · exact hall c hc
        · rw [List.mem_singleton.mp hc]
          show st.curCount = count (joinSp st.cur)
          rw [hcnt, count_joinSp_sum count hadd st.cur h2]
      · rw [List.mem_singleton.mp hc]
        rfl
  · by_cases h2 : cs < st.curCount + count s ∧ st.cur ≠ []
    · rw [chunkStep_close count cs co src t sec st s h1 h2.1 h2.2]
      refine ⟨?_, ?_⟩
      · intro c hc
        rcases List.mem_append.mp hc with hc | hc
        · exact hall c hc
        · rw [List.mem_singleton.mp hc]
          show st.curCount = count (joinSp st.cur)
          rw [hcnt, count_joinSp_sum count hadd st.cur h2.2]
      · show (overlapSeed count co st.cur).2 + count s =
          (((overlapSeed count co st.cur).1 ++ [s]).map count).sum
        rw [overlapSeed_sum count co st.cur, List.map_append, List.sum_append]
        simp
    · rw [chunkStep_append count cs co src t sec st s h1 h2]
      refine ⟨hall, ?_⟩
      show st.curCount + count s = ((st.cur ++ [s]).map count).sum
      rw [hcnt, List.map_append, List.sum_append]
      simp

theorem foldl_chunkStep_sumInv (count : String → Nat) (cs co : Nat)
    (src : String) (t sec : Option String)
    (hadd : ∀ a b : String, count (a ++ " " ++ b) = count a + count b) :
    ∀ (sentences : List String) (st : ChunkState), sumInv count st →
      sumInv count (sentences.foldl (chunkStep count cs co src t sec) st)
  | [], _, h => h
  | s :: rest, st, h =>
    foldl_chunkStep_sumInv count cs co src t sec hadd rest _
      (chunkStep_sumInv count cs co src t sec st s hadd h)

theorem chunkFinal_sum (count : String → Nat) (src : String)
    (t sec : Option String) (st : ChunkState)
    (hadd : ∀ a b : String, count (a ++ " " ++ b) = count a + count b)
    (h : sumInv count st) :
    ∀ c ∈ (if st.cur ≠ [] then
        st.chunks ++ [mkChunk src t sec (joinSp st.cur) st.pos st.curCount]
      else st.chunks), c.metadata.token_count = count c.text := by
  intro c hc
  by_cases hcur : st.cur ≠ []
  · rw [if_pos hcur] at hc
    rcases List.mem_append.mp hc with hc | hc
    · exact h.1 c hc
    · rw [List.mem_singleton.mp hc]
      show st.curCount = count (joinSp st.cur)
      rw [h.2, count_joinSp_sum count hadd st.cur hcur]
  · rw [if_neg hcur] at hc
    exact h.1 c hc

theorem nonSpaceCount_additive (a b : String) :
    nonSpaceCount (a ++ " " ++ b) = nonSpaceCount a + nonSpaceCount b := by
  have h1 : (" " : String).data = [' '] := rfl
  simp [nonSpaceCount, String.data_append, h1, List.filter_append]

theorem mem_insertDescBy {β : Type} (key : β → ℚ) (x : β) :
    ∀ (l : List β) (a : β), a ∈ insertDescBy key x l ↔ a = x ∨ a ∈ l
  | [], a => by simp [insertDescBy]
  | y :: ys, a => by
    by_cases h : key y ≤ key x
    · simp only [insertDescBy, if_pos h, List.mem_cons]
    · simp only [insertDescBy, if_neg h, List.mem_cons, mem_insertDescBy key x ys a]
      tauto

theorem pairwise_insertDescBy {β : Type} (key : β → ℚ) (x : β) :
    ∀ l : List β, l.Pairwise (fun a b => key b ≤ key a) →
      (insertDescBy key x l).Pairwise (fun a b => key b ≤ key a)
  | [], _ => by simp [insertDescBy]
  | y :: ys, h => by
    rcases List.pairwise_cons.mp h with ⟨hy, hys⟩
    by_cases hk : key y ≤ key x
    · simp only [insertDescBy, if_pos hk]
      refine List.pairwise_cons.mpr ⟨?_, h⟩
      intro z hz
      rcases List.mem_cons.mp hz with rfl | hz
      · exact hk
      · exact le_trans (hy z hz) hk
    · simp only [insertDescBy, if_neg hk]
      refine List.pairwise_cons.mpr ⟨?_, pairwise_insertDescBy key x ys hys⟩
      intro z hz
      rcases (mem_insertDescBy key x ys z).mp hz with rfl | hz
      · exact le_of_not_le hk
      · exact hy z hz

theorem sorted_sortDescBy {β : Type} (key : β → ℚ) :
    ∀ l : List β, (sortDescBy key l).Pairwise (fun a b => key b ≤ key a)
  | [] => by simp [sortDescBy]
  | x :: xs => pairwise_insertDescBy key x _ (sorted_sortDescBy key xs)

/-- Stability of the insertion step: filtering any score class out of
`insertDescBy key x l` gives the same list as filtering it out of `x :: l`. -/
theorem filter_insertDescBy {β : Type} (key : β → ℚ) (x : β) (s : ℚ) :
    ∀ l : List β,
      (insertDescBy key x l).filter (fun p => key p == s) =
        (x :: l).filter (fun p => key p == s)
  | [] => rfl
  | y :: ys => by
    by_cases hk : key y ≤ key x
    · simp only [insertDescBy, if_pos hk]
    · have ih := filter_insertDescBy key x s ys
      by_cases hy : key y = s <;> by_cases hx : key x = s
      · exact absurd (le_of_eq (hy.trans hx.symm)) hk
      · simp only [insertDescBy, if_neg hk, List.filter_cons]
        simp [hy, hx, ih, List.filter_cons]
      · simp only [insertDescBy, if_neg hk, List.filter_cons]
        simp [hy, hx, ih, List.filter_cons]
      · simp only [insertDescBy, if_neg hk, List.filter_cons]
        simp [hy, hx, ih, List.filter_cons]

/-- Stability of the stable descending sort: each score class keeps the input
order. -/
theorem filter_sortDescBy {β : Type} (key : β → ℚ) (s : ℚ) :
    ∀ l : List β,
      (sortDescBy key l).filter (fun p => key p == s) =
        l.filter (fun p => key p == s)
  | [] => rfl
  | x :: xs => by
    simp only [sortDescBy, filter_insertDescBy key x s (sortDescBy key xs),
      List.filter_cons, filter_sortDescBy key s xs]

/-! ### Claims -/

/-- **C1.** Citation extraction scans the answer text for all `[n]` markers,
keeps the distinct values in first-appearance order (later duplicates
dropped), maps each in-range `n` (`1 ≤ n ≤ length(chunks)`) to `chunks[n-1]`
tagged with `citation_number = n`, in first-appearance order, silently
dropping out-of-range markers; in particular markers `[2]`, `[1]`, `[2]`,
`[5]` over four chunks yield citations numbered 2 then 1, bound to
`chunks[1]` and `chunks[0]`. -/
theorem c1_citation_extraction :
    (∀ (α : Type) (chunks : List α) (answer_text : String),
        extract_citations answer_text chunks = citationsSpec answer_text chunks) ∧
    extract_citations "Fact [2]. Also [1], [2] and [5]." ["c1x", "c2x", "c3x", "c4x"] =
      [("c2x", 2), ("c1x", 1)] := by
  constructor
  · intro α chunks answer_text
    unfold extract_citations citationsSpec
    rw [dedupSeenAux_eq_firstOccurrences, mapCitationsCode_eq_filterMap]
    congr 2
    simp
  · decide

/-- **C2 (counterexample).** With character-count tokenization and a large
budget, `"Ab. Cd."` becomes a single two-sentence chunk whose recorded
`token_count` is `6`, the sum of the two sentence counts (3 + 3), while the
tokenizer count of the chunk's joined text `"Ab. Cd."` is `7`: the code
maintains `token_count` as a running sum of per-sentence counts and never
recounts the joined text, so the recorded count is not in general the count
of the chunk's final text. -/
theorem c2_counterexample :
    (chunk_text String.length 100 10 "Ab. Cd." "user_input" none none).map
        (fun c => (c.text, c.metadata.token_count)) = [("Ab. Cd.", 6)] ∧
    String.length "Ab. Cd." = 7 ∧
    ¬ (∀ c ∈ chunk_text String.length 100 10 "Ab. Cd." "user_input" none none,
        c.metadata.token_count = String.length c.text) := by
  refine ⟨by decide, by decide, by decide⟩

/-- **C2 (amended).** The recorded `token_count` of every chunk is the sum of
the tokenizer counts of the chunk's sentences (for a standalone
oversized-sentence chunk, the count of that sentence); consequently, whenever
the tokenizer is additive across single-space joins, it equals the tokenizer
count of the chunk's final joined text, computed with the same tokenizer used
for budgeting. -/
theorem c2_token_count_amended (count : String → Nat) (cs co : Nat)
    (text src : String) (t sec : Option String)
    (hadd : ∀ a b : String, count (a ++ " " ++ b) = count a + count b) :
    ∀ c ∈ chunk_text count cs co text src t sec,
      c.metadata.token_count = count c.text := by
  intro c hc
  by_cases h : pyStrip text = ""
  · simp [chunk_text, h] at hc
  · simp only [chunk_text, if_neg h] at hc
    exact chunkFinal_sum count src t sec _ hadd
      (foldl_chunkStep_sumInv count cs co src t sec hadd _ ⟨[], [], 0, 0⟩
        ⟨fun c hc => absurd hc (List.not_mem_nil c), rfl⟩)
      c hc

theorem c2_token_count_amended_witness :
    ((∀ a b : String,
        nonSpaceCount (a ++ " " ++ b) = nonSpaceCount a + nonSpaceCount b) ∧
      mkChunk "doc" none none "Ab. Cd. Ef." 0 9 ∈
        chunk_text nonSpaceCount 10 2 "Ab. Cd. Ef." "doc" none none) ∧
    (mkChunk "doc" none none "Ab. Cd. Ef." 0 9).metadata.token_count =
      nonSpaceCount (mkChunk "doc" none none "Ab. Cd. Ef." 0 9).text :=
  ⟨⟨nonSpaceCount_additive, by decide⟩,
    c2_token_count_amended nonSpaceCount 10 2 "Ab. Cd. Ef." "doc" none none
      nonSpaceCount_additive (mkChunk "doc" none none "Ab. Cd. Ef." 0 9) (by decide)⟩

/-- **C3 (counterexample).** On a successful external call whose response
lists two equal-score results in the order (index 1, index 0), the success
path of `rerank` outputs chunk 1 before chunk 0: the stable sort is applied
to the list in *response* order, so ties between equal `reranker_score`
values follow the reranker response order, not the original retrieval
order. -/
theorem c3_counterexample :
    (rerankSuccessCore ["a", "b"] [(1, (1 : ℚ)), (0, 1)] 5).map
        (fun r => r.reranked_chunks) = some [("b", some (1 : ℚ)), ("a", some 1)] ∧
    ¬ tiesFollowRetrievalOrder ["a", "b"] [("b", some (1 : ℚ)), ("a", some 1)] := by
  refine ⟨by decide, ?_⟩
  intro hties
  rcases List.pairwise_cons.mp hties with ⟨hrel, -⟩
  have h01 := hrel ("a", some (1 : ℚ)) (List.mem_singleton.mpr rfl) rfl
  exact absurd h01 (by decide)

/-- **C3 (amended).** On a successful external call, `rerank` returns at most
`top_k` chunks, sorted non-increasing by `reranker_score`; ties between equal
scores are broken by the order of the entries in the reranker response (the
list sorted stably is the response-order list): each score class of the
sorted list equals the corresponding score class of the response-order
list. -/
theorem c3_rerank_sorted_amended {α : Type} (chunks : List α)
    (results : List (Nat × ℚ)) (top_k : Nat) (r : RerankResult α)
    (h : rerankSuccessCore chunks results top_k = some r) :
    r.reranked_chunks.length ≤ top_k ∧
    ∃ reranked : List (α × ℚ),
      results.mapM (fun p => (chunks.get? p.1).map (fun c => (c, p.2))) =
        some reranked ∧
      r.reranked_chunks =
        ((sortDescBy (fun p => p.2) reranked).take top_k).map
          (fun p => (p.1, some p.2)) ∧
      (sortDescBy (fun p => p.2) reranked).Pairwise
        (fun p q : α × ℚ => q.2 ≤ p.2) ∧
      (∀ s : ℚ,
        (sortDescBy (fun p => p.2) reranked).filter (fun p => p.2 == s) =
          reranked.filter (fun p => p.2 == s)) := by
  unfold rerankSuccessCore at h
  cases hm : results.mapM (fun p => (chunks.get? p.1).map (fun c => (c, p.2))) with
  | none =>
    rw [hm] at h
    simp at h
  | some reranked =>
    rw [hm] at h
    simp only [Option.map_some'] at h
    have hr := (Option.some.injEq _ _).mp h
    refine ⟨?_, reranked, rfl, ?_, sorted_sortDescBy (fun p => p.2) reranked,
      fun s => filter_sortDescBy (fun p => p.2) s reranked⟩
    · rw [← hr]
      show (((sortDescBy (fun p => p.2) reranked).take top_k).map
        (fun p => (p.1, some p.2))).length ≤ top_k
      rw [List.length_map, List.length_take]
      exact min_le_left _ _
    · rw [← hr]

theorem c3_rerank_sorted_amended_witness :
    rerankSuccessCore ["a", "b"] [(0, (2 : ℚ)), (1, 1)] 5 =
      some { reranked_chunks := [("a", some (2 : ℚ)), ("b", some 1)],
             rerank_scores := [2, 1], count := 2, fallback := false } ∧
    (([("a", some (2 : ℚ)), ("b", some 1)] : List (String × Option ℚ)).length ≤ 5 ∧
      ∃ reranked : List (String × ℚ),
        ([(0, (2 : ℚ)), (1, 1)] : List (Nat × ℚ)).mapM
            (fun p => ((["a", "b"] : List String).get? p.1).map (fun c => (c, p.2))) =
          some reranked ∧
        ([("a", some (2 : ℚ)), ("b", some 1)] : List (String × Option ℚ)) =
          ((sortDescBy (fun p => p.2) reranked).take 5).map
            (fun p => (p.1, some p.2)) ∧
        (sortDescBy (fun p => p.2) reranked).Pairwise
          (fun p q : String × ℚ => q.2 ≤ p.2) ∧
        (∀ s : ℚ,
          (sortDescBy (fun p => p.2) reranked).filter (fun p => p.2 == s) =
            reranked.filter (fun p => p.2 == s))) :=
  ⟨rfl, c3_rerank_sorted_amended ["a", "b"] [(0, (2 : ℚ)), (1, 1)] 5 _ rfl⟩

/-- **C4 (counterexample).** With chunk_size 4, chunk_overlap 4 and
character-count tokenization, the text `"Ab. Cd. Ef. Gh."` yields four chunks
of token counts `[3, 6, 6, 6]`: the second and third chunks are not last,
exceed `chunk_size = 4`, and are not oversized-sentence chunks (their
recorded count, 6, is not the count of their text, 7), refuting the claim
that every non-last chunk obeys `token_count ≤ chunk_size` with
oversized-sentence chunks the sole exception. -/
theorem c4_counterexample :
    (chunk_text String.length 4 4 "Ab. Cd. Ef. Gh." "user_input" none none).map
        (fun c => (c.text, c.metadata.token_count)) =
      [("Ab.", 3), ("Ab. Cd.", 6), ("Cd. Ef.", 6), ("Ef. Gh.", 6)] ∧
    ¬ (∀ c ∈ (chunk_text String.length 4 4 "Ab. Cd. Ef. Gh." "user_input"
          none none).dropLast,
        c.metadata.token_count ≤ 4 ∨
        (4 < String.length c.text ∧
          c.metadata.token_count = String.length c.text)) := by
  constructor
  · decide
  · decide

/-- **C4 (amended).** Every chunk produced by `chunk_text` either has
`token_count ≤ chunk_size + chunk_overlap` (the overlap seed, of at most
`chunk_overlap` tokens, is pre-charged before the triggering sentence of up
to `chunk_size` tokens is appended unconditionally, so non-last chunks may
exceed `chunk_size` by up to `chunk_overlap`), or is an oversized-sentence
chunk, with `token_count = count(text) > chunk_size`. -/
theorem c4_token_budget_amended (count : String → Nat) (cs co : Nat)
    (text src : String) (t sec : Option String) :
    ∀ c ∈ chunk_text count cs co text src t sec,
      c.metadata.token_count ≤ cs + co ∨
      (cs < count c.text ∧ c.metadata.token_count = count c.text) := by
  intro c hc
  by_cases h : pyStrip text = ""
  · simp [chunk_text, h] at hc
  · simp only [chunk_text, if_neg h] at hc
    exact chunkFinal_budget count cs co src t sec _
      (foldl_chunkStep_budgetInv count cs co src t sec _ ⟨[], [], 0, 0⟩
        ⟨fun c hc => absurd hc (List.not_mem_nil c), Nat.zero_le _, fun _ => rfl⟩)
      c hc

theorem c4_token_budget_amended_witness :
    mkChunk "user_input" none none "Ab. Cd." 1 6 ∈
      chunk_text String.length 4 4 "Ab. Cd. Ef. Gh." "user_input" none none ∧
    ((mkChunk "user_input" none none "Ab. Cd." 1 6).metadata.token_count ≤ 4 + 4 ∨
      (4 < String.length (mkChunk "user_input" none none "Ab. Cd." 1 6).text ∧
        (mkChunk "user_input" none none "Ab. Cd." 1 6).metadata.token_count =
          String.length (mkChunk "user_input" none none "Ab. Cd." 1 6).text)) :=
  ⟨by decide,
    c4_token_budget_amended String.length 4 4 "Ab. Cd. Ef. Gh." "user_input" none none
      (mkChunk "user_input" none none "Ab. Cd." 1 6) (by decide)⟩

/-- **C6.** For every non-whitespace input text, the `metadata.position`
values of the chunks returned by `chunk_text` are the contiguous ascending
sequence `0, 1, ..., n-1` in output order. -/
theorem c6_positions_contiguous (count : String → Nat) (cs co : Nat)
    (text src : String) (t sec : Option String) (h : ¬ pyStrip text = "") :
    (chunk_text count cs co text src t sec).map (fun c => c.metadata.position) =
      List.range (chunk_text count cs co text src t sec).length := by
  simp only [chunk_text, if_neg h]
  exact chunkFinal_posOk src t sec _
    (foldl_chunkStep_posOk count cs co src t sec _ ⟨[], [], 0, 0⟩ ⟨rfl, rfl⟩)

/-- **C5.** When a chunk is closed because the next sentence would exceed the
budget, the next chunk is seeded with a suffix of the closed chunk's
sentences, accumulated backwards while the running total stays within
`chunk_overlap` and stopping at the first sentence that would exceed it; the
next chunk's pre-charged token count is the sum of the seed's token counts,
hence at most `chunk_overlap`.  An oversized-sentence chunk seeds nothing. -/
theorem c5_overlap_seeding :
    (∀ (count : String → Nat) (cs co : Nat) (src : String) (t sec : Option String)
        (st : ChunkState) (s : String),
        count s ≤ cs → cs < st.curCount + count s → st.cur ≠ [] →
        ((chunkStep count cs co src t sec st s).cur =
            (overlapSeed count co st.cur).1 ++ [s] ∧
          (chunkStep count cs co src t sec st s).curCount =
            (overlapSeed count co st.cur).2 + count s ∧
          (overlapSeed count co st.cur).2 =
            (((overlapSeed count co st.cur).1).map count).sum ∧
          (overlapSeed count co st.cur).2 ≤ co ∧
          (overlapSeed count co st.cur).1 <:+ st.cur ∧
          ((overlapSeed count co st.cur).1 ≠ st.cur →
            ∃ x, (x :: (overlapSeed count co st.cur).1) <:+ st.cur ∧
              co < (overlapSeed count co st.cur).2 + count x))) ∧
    (∀ (count : String → Nat) (cs co : Nat) (src : String) (t sec : Option String)
        (st : ChunkState) (s : String),
        cs < count s →
        (chunkStep count cs co src t sec st s).cur = [] ∧
        (chunkStep count cs co src t sec st s).curCount = 0) := by
  constructor
  · intro count cs co src t sec st s hs hpot hcur
    rw [chunkStep_close count cs co src t sec st s (by omega) hpot hcur]
    refine ⟨rfl, rfl, overlapSeed_sum count co st.cur, overlapSeed_le count co st.cur,
      overlapSeed_suffix count co st.cur, ?_⟩
    intro hne
    rcases overlapSeed_spec count co st.cur with h | h
    · exact absurd h hne
    · exact h
  · intro count cs co src t sec st s hs
    by_cases hcur : st.cur = []
    · rw [chunkStep_oversized_nocur count cs co src t sec st s hs hcur]
      exact ⟨rfl, rfl⟩
    · rw [chunkStep_oversized_flush count cs co src t sec st s hs hcur]
      exact ⟨rfl, rfl⟩

theorem c5_overlap_seeding_witness :
    ((String.length "Ef." ≤ 4 ∧
        4 < (ChunkState.mk [] ["Ab.", "Cd."] 6 1).curCount + String.length "Ef." ∧
        (ChunkState.mk [] ["Ab.", "Cd."] 6 1).cur ≠ []) ∧
      ((chunkStep String.length 4 4 "doc" none none
          (ChunkState.mk [] ["Ab.", "Cd."] 6 1) "Ef.").cur =
          (overlapSeed String.length 4 ["Ab.", "Cd."]).1 ++ ["Ef."] ∧
        (chunkStep String.length 4 4 "doc" none none
          (ChunkState.mk [] ["Ab.", "Cd."] 6 1) "Ef.").curCount =
          (overlapSeed String.length 4 ["Ab.", "Cd."]).2 + String.length "Ef." ∧
        (overlapSeed String.length 4 ["Ab.", "Cd."]).2 =
          (((overlapSeed String.length 4 ["Ab.", "Cd."]).1).map String.length).sum ∧
        (overlapSeed String.length 4 ["Ab.", "Cd."]).2 ≤ 4 ∧
        (overlapSeed String.length 4 ["Ab.", "Cd."]).1 <:+ ["Ab.", "Cd."] ∧
        ((overlapSeed String.length 4 ["Ab.", "Cd."]).1 ≠ ["Ab.", "Cd."] →
          ∃ x, (x :: (overlapSeed String.length 4 ["Ab.", "Cd."]).1) <:+ ["Ab.", "Cd."] ∧
            4 < (overlapSeed String.length 4 ["Ab.", "Cd."]).2 + String.length x))) ∧
    (4 < String.length "Abcdefgh." ∧
      ((chunkStep String.length 4 4 "doc" none none
          (ChunkState.mk [] ["Ab."] 3 0) "Abcdefgh.").cur = [] ∧
        (chunkStep String.length 4 4 "doc" none none
          (ChunkState.mk [] ["Ab."] 3 0) "Abcdefgh.").curCount = 0)) :=
  ⟨⟨⟨by decide, by decide, by decide⟩,
    c5_overlap_seeding.1 String.length 4 4 "doc" none none
      (ChunkState.mk [] ["Ab.", "Cd."] 6 1) "Ef." (by decide) (by decide) (by decide)⟩,
    by decide,
    c5_overlap_seeding.2 String.length 4 4 "doc" none none
      (ChunkState.mk [] ["Ab."] 3 0) "Abcdefgh." (by decide)⟩

theorem c6_positions_contiguous_witness :
    ¬ pyStrip "Ab. Cd. Ef. Gh." = "" ∧
    (chunk_text String.length 4 4 "Ab. Cd. Ef. Gh." "user_input" none none).map
        (fun c => c.metadata.position) =
      List.range (chunk_text String.length 4 4 "Ab. Cd. Ef. Gh." "user_input" none none).length :=
  ⟨by decide,
    c6_positions_contiguous String.length 4 4 "Ab. Cd. Ef. Gh." "user_input" none none
      (by decide)⟩

/-- **C9.** `generate_answer` called with an empty or whitespace-only query
raises `ValueError("Query cannot be empty")`, whatever the chunk list (in
particular also when it is empty): the empty-query check precedes the
empty-chunks fallback, so the fixed no-information answer is never returned
for an empty query. -/
theorem c9_empty_query_raises {α : Type} (query : String) (chunks : List α)
    (outcomes : List (Option String)) (h : pyStrip query = "") :
    generate_answer query chunks outcomes = .error "Query cannot be empty" := by
  simp [generate_answer, h]

theorem c9_empty_query_raises_witness :
    pyStrip "  " = "" ∧
    generate_answer "  " ([] : List Nat) [] = .error "Query cannot be empty" :=
  ⟨by decide, c9_empty_query_raises "  " ([] : List Nat) [] (by decide)⟩

/-- **C8.** `generate_answer` with a non-empty query and an empty chunk list
returns the fixed no-information answer and an empty citation list without
issuing any external model call (`llm_calls = 0`). -/
theorem c8_empty_chunks_no_call {α : Type} (query : String)
    (outcomes : List (Option String)) (h : ¬ pyStrip query = "") :
    generate_answer query ([] : List α) outcomes =
      .ok (some { answer := noInfoAnswer, citations := [], chunk_count := 0,
                  fallback := false, llm_calls := 0 }) := by
  simp [generate_answer, h]

theorem c8_empty_chunks_no_call_witness :
    ¬ pyStrip "What is AI?" = "" ∧
    generate_answer "What is AI?" ([] : List Nat) [some "hi"] =
      .ok (some { answer := noInfoAnswer, citations := [], chunk_count := 0,
                  fallback := false, llm_calls := 0 }) :=
  ⟨by decide, c8_empty_chunks_no_call "What is AI?" [some "hi"] (by decide)⟩

/-- **C7.** If every attempt of the external reranking call fails, `rerank`
returns (does not raise) the first `top_k` input chunks unchanged and in
order, without scores, annotated as a fallback. -/
theorem c7_rerank_fallback {α : Type} (query : String) (chunks : List α)
    (top_k : Nat) (outcomes : List (Option (List (Nat × ℚ))))
    (hq : ¬ pyStrip query = "") (hc : chunks ≠ []) (ho : outcomes ≠ [])
    (hall : ∀ o ∈ outcomes, o = none) :
    rerank query chunks top_k outcomes =
      .ok (some { reranked_chunks := (chunks.take top_k).map (fun c => (c, none)),
                  rerank_scores := [], count := min chunks.length top_k,
                  fallback := true }) := by
  simp only [rerank, if_neg hq, isEmpty_eq_false_of_ne_nil hc, Bool.false_eq_true,
    if_false]
  rw [rerankAttemptsLoop_all_none chunks top_k outcomes ho hall]

theorem c7_rerank_fallback_witness :
    (¬ pyStrip "q" = "" ∧ (["a", "b", "c"] : List String) ≠ [] ∧
      ([none, none] : List (Option (List (Nat × ℚ)))) ≠ [] ∧
      (∀ o ∈ ([none, none] : List (Option (List (Nat × ℚ)))), o = none)) ∧
    rerank "q" ["a", "b", "c"] 2 [none, none] =
      .ok (some { reranked_chunks := [("a", none), ("b", none)],
                  rerank_scores := [], count := 2, fallback := true }) :=
  ⟨⟨by decide, by decide, by decide, by decide⟩,
    c7_rerank_fallback "q" ["a", "b", "c"] 2 [none, none]
      (by decide) (by decide) (by decide) (by decide)⟩

/-- **C10.** `generate_embeddings_batch` silently filters out empty and
whitespace-only strings before calling the embedding collaborator: given the
API contract (one embedding per submitted text), for an input mixing
empty/whitespace entries with non-empty ones, a successful return has one
embedding per non-empty text and is strictly shorter than the input list. -/
theorem c10_batch_filters_empties {E : Type} (api : List String → List E)
    (attempts : List Bool) (texts : List String) (r : List E)
    (hapi : ∀ l, (api l).length = l.length)
    (hempty : ∃ t ∈ texts, pyStrip t = "")
    (hok : generate_embeddings_batch api attempts texts = .ok (some r)) :
    r.length = (texts.filter (fun t => pyStrip t != "")).length ∧
    r.length < texts.length := by
  have htne : texts ≠ [] := by
    rcases hempty with ⟨t, ht, -⟩
    exact List.ne_nil_of_mem ht
  rw [generate_embeddings_batch, if_neg htne] at hok
  by_cases hv : texts.filter (fun t => pyStrip t != "") = []
  · rw [if_pos hv] at hok
    exact absurd hok (by simp)
  · rw [if_neg hv] at hok
    have hr := embedAttemptsLoop_ok api attempts _ r hok
    have hlen : r.length = (texts.filter (fun t => pyStrip t != "")).length := by
      rw [hr, hapi]
    refine ⟨hlen, ?_⟩
    rcases hempty with ⟨t, ht, hts⟩
    have : (texts.filter (fun t => pyStrip t != "")).length < texts.length :=
      length_filter_lt_of_mem_not _ texts t ht (by simp [hts])
    omega

theorem c10_batch_filters_empties_witness :
    ((∀ l : List String, (l.map (fun _ => (0 : Nat))).length = l.length) ∧
      (∃ t ∈ ["", "hi", " "], pyStrip t = "") ∧
      generate_embeddings_batch (fun l => l.map (fun _ => (0 : Nat))) [true]
        ["", "hi", " "] = .ok (some [0])) ∧
    ([0] : List Nat).length = (["", "hi", " "].filter (fun t => pyStrip t != "")).length ∧
    ([0] : List Nat).length < (["", "hi", " "] : List String).length :=
  ⟨⟨fun l => by simp, by decide, rfl⟩,
    c10_batch_filters_empties (fun l => l.map (fun _ => (0 : Nat))) [true]
      ["", "hi", " "] [0] (fun l => by simp) (by decide) rfl⟩

end CiteRAG
